import Mathlib

/-!
# Sales dashboard: aggregation and weekly time-bucketing

Shallow embedding of

* `src/backend/services/dashboard.service.js`
  (`getWeeklySales`, `getTodaySummary`, `getRecentOrders`), and
* `src/frontend/src/pages/Dashboard.jsx`
  (`getMonday` and the `aggregated` series of `DashboardChart`).

Modelling conventions.

* JavaScript numbers are modelled by exact rationals; a numeric field that is
  `undefined` or `null` is `none`.
* An instant (`Date`) is its time value: integer milliseconds since the epoch, UTC.
* The local time zone is a fixed offset `off`, in minutes east of UTC
  (local time value = UTC time value + `off * 60000`); daylight-saving
  transitions are outside the model.
* A storage query returns a list of documents; a query that throws is an
  `Except.error`.
-/

namespace Dashboard

/-! ## Calendar arithmetic of the JavaScript `Date` object -/

/-- Milliseconds in one day (`msPerDay` of the language specification). -/
def msPerDay : Int := 86400000

/-- Milliseconds in one minute. -/
def msPerMinute : Int := 60000

/-- Day number of a time value: `Day(t) = floor(t / msPerDay)`. -/
def dayOf (t : Int) : Int := t / msPerDay

/-- Local time value of an instant under the fixed offset `off` (minutes east of UTC). -/
def localTime (off t : Int) : Int := t + off * msPerMinute

/-- Instant whose local time value is `lt`. -/
def fromLocal (off lt : Int) : Int := lt - off * msPerMinute

/-- Local calendar day number of an instant. -/
def localDay (off t : Int) : Int := dayOf (localTime off t)

/-- Time within the local day of an instant, in milliseconds. -/
def localTimeInDay (off t : Int) : Int := localTime off t % msPerDay

/-- Calendar date (proleptic Gregorian). -/
structure CivilDate where
  year : Int
  month : Int
  day : Int
deriving DecidableEq, Repr

/-- Calendar date of a day number (days since 1970-01-01). -/
def civilFromDays (z0 : Int) : CivilDate :=
  let z := z0 + 719468
  let era := z / 146097
  let doe := z - era * 146097
  let yoe := (doe - doe / 1460 + doe / 36524 - doe / 146096) / 365
  let doy := doe - (365 * yoe + yoe / 4 - yoe / 100)
  let mp := (5 * doy + 2) / 153
  let d := doy - (153 * mp + 2) / 5 + 1
  let m := if mp < 10 then mp + 3 else mp - 9
  let y := yoe + era * 400
  ⟨if m ≤ 2 then y + 1 else y, m, d⟩

/-- Week day of a day number, `0` = Sunday .. `6` = Saturday (day `0` is a Thursday). -/
def weekDay (day : Int) : Int := (day + 4) % 7

/-- The method `Date.prototype.getDay`: local day of the week, `0` = Sunday. -/
def getDay (off t : Int) : Int := weekDay (localDay off t)

/-- The method `Date.prototype.getDate`: local day of the month. -/
def getDate (off t : Int) : Int := (civilFromDays (localDay off t)).day

/-- The method `Date.prototype.setDate(n)`: same local year, month and time of day,
day of the month `n` (values outside the month roll over).  The first of the
month of `t` is the day `localDay t - (getDate t - 1)`, and `MakeDay` adds `n - 1`. -/
def setDate (off t n : Int) : Int :=
  fromLocal off ((localDay off t - (getDate off t - 1) + (n - 1)) * msPerDay + localTimeInDay off t)

/-- The call `setHours(0, 0, 0, 0)`: local midnight of the same local day. -/
def setHoursZero (off t : Int) : Int := fromLocal off (localDay off t * msPerDay)

/-- Decimal digits of a natural number, left-padded with `0` to width `w`. -/
def padZero (w n : Nat) : String :=
  let s := toString n
  String.mk (List.replicate (w - s.length) '0') ++ s

/-- Year part of an ISO-8601 date string: four digits for years 0..9999, otherwise
a sign and six digits. -/
def isoYear (y : Int) : String :=
  if 0 ≤ y ∧ y ≤ 9999 then padZero 4 y.toNat
  else (if y < 0 then "-" else "+") ++ padZero 6 y.natAbs

/-- The text `YYYY-MM-DD` of a calendar date. -/
def isoDateString (c : CivilDate) : String :=
  isoYear c.year ++ "-" ++ padZero 2 c.month.toNat ++ "-" ++ padZero 2 c.day.toNat

/-- The expression `d.toISOString().split('T')[0]`: the UTC calendar date of an
instant, as `YYYY-MM-DD`. -/
def isoDateKey (t : Int) : String := isoDateString (civilFromDays (dayOf t))

/-! ## Stored documents (`dashboard.service.js`) -/

/-- The JavaScript expression `x || 0` on a numeric field. -/
def orZero : Option ℚ → ℚ
  | some v => if v = 0 then 0 else v
  | none => 0

/-- The JavaScript expression `s || ''` on a text field. -/
def orEmpty : Option String → String
  | some s => s
  | none => ""

/-- Customer identifier as found on a stored record. -/
inductive CustomerId where
  | missing
  | str (s : String)
  | objectId (hex : String)
deriving DecidableEq, Repr

/-- JavaScript truthiness of a customer identifier: absent and the empty text are falsy. -/
def CustomerId.truthy : CustomerId → Bool
  | .missing => false
  | .str s => decide (s ≠ "")
  | .objectId _ => true

/-- The conversion `String(customerId)` of a present identifier. -/
def CustomerId.toStr : CustomerId → String
  | .missing => "undefined"
  | .str s => s
  | .objectId hex => hex

/-- Line of a per-transaction record. -/
structure Item where
  name : Option String
  qty : Option ℚ
deriving DecidableEq, Repr

/-- Per-transaction record (`OrderRecord` collection). -/
structure OrderRecord where
  _id : String
  items : Option (List Item)
  total : Option ℚ
  paymentMethod : Option String
  createdAt : Option Int
  customerId : CustomerId
  storeId : Option String
deriving DecidableEq, Repr

/-- Legacy per-line-item row (`Orders` collection). -/
structure Order where
  price : Option ℚ
  qty : Option ℚ
  customerId : CustomerId
  createdAt : Option Int
deriving DecidableEq, Repr

/-- The query `find(\x7b createdAt: \x7b $gte: today \x7d \x7d)`: documents created at or after `today`. -/
def findSince {α : Type} (createdAt : α → Option Int) (today : Int) (coll : List α) : List α :=
  coll.filter (fun o => match createdAt o with
    | some t => decide (today ≤ t)
    | none => false)

/-! ## `getTodaySummary` -/

/-- The method `Set.prototype.add` on a set of texts kept in insertion order. -/
def setAdd (s : List String) (x : String) : List String :=
  if x ∈ s then s else s ++ [x]

/-- The loop `forEach(o => \x7b if (o.customerId) customers.add(String(o.customerId)) \x7d)`
started from the set `s`. -/
def addCustomers (s : List String) (ids : List CustomerId) : List String :=
  ids.foldl (fun acc c => if c.truthy then setAdd acc c.toStr else acc) s

/-- Result of `getTodaySummary`. -/
structure TodaySummary where
  totalSales : ℚ
  totalCustomers : Nat
  totalOrders : Nat
  avgSale : ℚ
deriving DecidableEq, Repr

/-- The constant `todaysOrderRecords`: the per-transaction records created at or after
local midnight of `now`. -/
def todaysOrderRecords (off now : Int) (orderRecords : List OrderRecord) : List OrderRecord :=
  findSince OrderRecord.createdAt (setHoursZero off now) orderRecords

/-- The constant `todaysOrders`: the legacy rows created at or after local midnight of `now`. -/
def todaysOrders (off now : Int) (orders : List Order) : List Order :=
  findSince Order.createdAt (setHoursZero off now) orders

/-- The function `getTodaySummary`, run at instant `now` on a host with offset `off`,
against the two collections. -/
def getTodaySummary (off now : Int) (orderRecords : List OrderRecord) (orders : List Order) :
    TodaySummary :=
  let recs := todaysOrderRecords off now orderRecords
  let acc : ℚ × Nat × List String :=
    if recs.length ≠ 0 then
      (recs.foldl (fun s o => s + orZero o.total) 0,
       recs.length,
       addCustomers [] (recs.map OrderRecord.customerId))
    else
      let legacy := todaysOrders off now orders
      (legacy.foldl (fun s o => s + orZero o.price * orZero o.qty) 0,
       legacy.length,
       addCustomers [] (legacy.map Order.customerId))
  let totalSales := acc.1
  let totalOrders := acc.2.1
  let totalCustomers := acc.2.2.length
  let avgSale := if totalOrders > 0 then totalSales / (totalOrders : ℚ) else 0
  ⟨totalSales, totalCustomers, totalOrders, avgSale⟩

/-! ## `getRecentOrders` -/

/-- Exception raised by JavaScript evaluation. -/
inductive JsError where
  | typeError (msg : String)
deriving DecidableEq, Repr

deriving instance DecidableEq for Except

/-- Entry of the recent-orders feed. -/
structure RecentOrder where
  _id : String
  itemName : Option String
  quantity : ℚ
  totalAmount : ℚ
  paymentMethod : String
  createdAt : Option Int
  customerId : CustomerId
deriving DecidableEq, Repr

/-- Order of `createdAt` values used by the sort stage: `a` is at least `b`
(a missing value sorts lowest). -/
def createdAtGe : Option Int → Option Int → Bool
  | _, none => true
  | none, some _ => false
  | some x, some y => decide (y ≤ x)

/-- Insertion into a list sorted by `createdAt` descending. -/
def insertDesc (r : OrderRecord) : List OrderRecord → List OrderRecord
  | [] => [r]
  | x :: xs => if createdAtGe r.createdAt x.createdAt then r :: x :: xs else x :: insertDesc r xs

/-- The query `OrderRecord.find(filter).sort(\x7b createdAt: -1 \x7d).limit(limit)`, where the
filter selects on `storeId` only when one is given; a limit of `0` means no limit. -/
def findRecent (coll : List OrderRecord) (storeId : Option String) (limit : Nat) :
    List OrderRecord :=
  let matching := match storeId with
    | some s => if s = "" then coll else coll.filter (fun r => decide (r.storeId = some s))
    | none => coll
  let sorted := matching.foldr insertDesc []
  if limit = 0 then sorted else sorted.take limit

/-- The callback of `recs.map` in `getRecentOrders`: normalisation of one record.
Reading `r.items.length` when `r.items` is absent raises a `TypeError`. -/
def normalizeRecord (r : OrderRecord) : Except JsError RecentOrder :=
  let quantity := (r.items.getD []).foldl (fun s it => s + orZero it.qty) 0
  let itemName : Except JsError (Option String) :=
    match r.items with
    | some items =>
      if items.length = 1 then .ok ((items.head?).bind Item.name)
      else .ok (some (toString items.length ++ " items"))
    | none => .error (.typeError "Cannot read properties of undefined (reading length)")
  match itemName with
  | .error e => .error e
  | .ok name =>
    .ok ⟨r._id, name, quantity, orZero r.total, orEmpty r.paymentMethod, r.createdAt,
      if r.customerId.truthy then r.customerId else .missing⟩

/-- The expression `recs.map(r => ...)`: the callback runs on the records in order and the
first exception aborts the whole call. -/
def normalizeAll : List OrderRecord → Except JsError (List RecentOrder)
  | [] => .ok []
  | r :: rs =>
    match normalizeRecord r with
    | .error e => .error e
    | .ok x =>
      match normalizeAll rs with
      | .error e => .error e
      | .ok xs => .ok (x :: xs)

/-- The function `getRecentOrders`. -/
def getRecentOrders (coll : List OrderRecord) (storeId : Option String) (limit : Nat) :
    Except JsError (List RecentOrder) :=
  normalizeAll (findRecent coll storeId limit)

/-! ## `getWeeklySales` -/

/-- Failure of a storage call. -/
inductive DbError where
  | failure (msg : String)
deriving DecidableEq, Repr

/-- Document of the pre-aggregated `Sales` collection. -/
structure SalesDoc where
  date : Option String
  amount : Option ℚ
deriving DecidableEq, Repr

/-- Output row of both aggregation pipelines: group key and summed total. -/
structure Row where
  _id : Option String
  total : ℚ
deriving DecidableEq, Repr

/-- Ascending order of group keys used by the `$sort` stage (a null key sorts first). -/
def keyLt : Option String → Option String → Bool
  | none, none => false
  | none, some _ => true
  | some _, none => false
  | some a, some b => decide (a < b)

/-- Adds `v` to the group of key `k`, keeping the rows ascending by key. -/
def addToGroup (k : Option String) (v : ℚ) : List Row → List Row
  | [] => [⟨k, v⟩]
  | r :: rs =>
    if r._id = k then ⟨k, r.total + v⟩ :: rs
    else if keyLt k r._id then ⟨k, v⟩ :: r :: rs
    else r :: addToGroup k v rs

/-- The stages `$group` (sum per key) and `$sort` (key ascending) over keyed amounts. -/
def groupSum (docs : List (Option String × ℚ)) : List Row :=
  docs.foldl (fun acc d => addToGroup d.1 d.2 acc) []

/-- The pipeline of `Sales.aggregate`: group by `$date`, sum `$amount`. -/
def salesPipeline (docs : List SalesDoc) : List Row :=
  groupSum (docs.map (fun d => (d.date, d.amount.getD 0)))

/-- The pipeline of `OrderRecord.aggregate`: group by the `%Y-%m-%d` text of `createdAt`
(UTC), sum `$total`. -/
def orderRecordPipeline (docs : List OrderRecord) : List Row :=
  groupSum (docs.map (fun d => (d.createdAt.map isoDateKey, d.total.getD 0)))

/-- The call `OrderRecord.aggregate([...])`: the pipeline over the documents, or the
failure raised on the way to them. -/
def orderRecordAggregate (orderRecords : Except DbError (List OrderRecord)) :
    Except DbError (List Row) :=
  match orderRecords with
  | .ok docs => .ok (orderRecordPipeline docs)
  | .error e => .error e

/-- The function `getWeeklySales`; each argument is the outcome of reaching the
collection: its documents, or the failure the `aggregate` call raises. -/
def getWeeklySales (sales : Except DbError (List SalesDoc))
    (orderRecords : Except DbError (List OrderRecord)) : Except DbError (List Row) :=
  let fallback : Except DbError (List Row) := orderRecordAggregate orderRecords
  match sales with
  | .ok docs =>
    let res := salesPipeline docs
    if res.length ≠ 0 then .ok res else fallback
  | .error _ => fallback

/-! ## The weekly window of `DashboardChart` (`Dashboard.jsx`) -/

/-- Order as received by the chart. `createdAt` is the instant its timestamp denotes
(`none` when the field is absent); `date` is the literal day text, when given. -/
structure ChartOrder where
  createdAt : Option Int
  date : Option String
  totalAmount : Option ℚ
  amount : Option ℚ
  total : Option ℚ
deriving DecidableEq, Repr

/-- The function `getMonday`. -/
def getMonday (off d : Int) : Int :=
  let date := d
  let day := getDay off date
  let diff := if day = 0 then -6 else 1 - day
  let monday := setDate off date (getDate off date + diff)
  setHoursZero off monday

/-- The array `days`: for `i` from 0 to 6, a copy of `monday` with `setDate(monday.getDate() + i)`. -/
def weekDays (off now : Int) : List Int :=
  let monday := getMonday off now
  (List.range 7).map (fun (i : Nat) => setDate off monday (getDate off monday + (i : Int)))

/-- Property assignment `map[k] = v` on a plain object holding numbers. -/
def mapSet : List (String × ℚ) → String → ℚ → List (String × ℚ)
  | [], k, v => [(k, v)]
  | (k0, v0) :: rest, k, v =>
    if k0 = k then (k0, v) :: rest else (k0, v0) :: mapSet rest k v

/-- Property read `map[k]`; `none` is `undefined`. Only own properties are modelled: a
key inherited from `Object.prototype` is never one of the day keys read back by the chart. -/
def mapGet : List (String × ℚ) → String → Option ℚ
  | [], _ => none
  | (k0, v0) :: rest, k => if k0 = k then some v0 else mapGet rest k

/-- The object `map` after `days.forEach`: every day key set to 0. -/
def initMap (days : List Int) : List (String × ℚ) :=
  days.foldl (fun m d => mapSet m (isoDateKey d) 0) []

/-- The expression `Number(o.totalAmount ?? o.amount ?? o.total ?? 0) || 0`. -/
def orderAmount (o : ChartOrder) : ℚ :=
  let picked : ℚ :=
    match o.totalAmount with
    | some v => v
    | none =>
      match o.amount with
      | some v => v
      | none =>
        match o.total with
        | some v => v
        | none => 0
  orZero (some picked)

/-- The day key `dateStr` of an order: the UTC date text of `createdAt` when present,
otherwise `o.date || null`. -/
def orderDateStr (o : ChartOrder) : Option String :=
  match o.createdAt with
  | some t => some (isoDateKey t)
  | none => o.date

/-- One pass of the loop body `for (const o of orders)`. -/
def addOrder (m : List (String × ℚ)) (o : ChartOrder) : List (String × ℚ) :=
  match orderDateStr o with
  | none => m
  | some dateStr =>
    if dateStr = "" then m
    else
      match mapGet m dateStr with
      | none => m
      | some cur => mapSet m dateStr (orZero (some cur) + orderAmount o)

/-- What the label `toLocaleDateString(undefined, \x7b weekday, month, day \x7d)` shows:
the local day of the week (`0` = Sunday), month and day of the month. -/
structure DayLabel where
  weekday : Int
  month : Int
  day : Int
deriving DecidableEq, Repr

/-- Label of a calendar day, given by its day number. -/
def dayLabel (day : Int) : DayLabel :=
  ⟨weekDay day, (civilFromDays day).month, (civilFromDays day).day⟩

/-- Label of an instant in local time. -/
def toLocaleLabel (off t : Int) : DayLabel := dayLabel (localDay off t)

/-- Point of the chart series. -/
structure Point where
  label : DayLabel
  value : ℚ
deriving DecidableEq, Repr

/-- The memoised value `aggregated` of `DashboardChart`. -/
def aggregated (off now : Int) (orders : List ChartOrder) : List Point :=
  let days := weekDays off now
  let map := orders.foldl addOrder (initMap days)
  days.map (fun d => ⟨toLocaleLabel off d, orZero (mapGet map (isoDateKey d))⟩)

/-- The array `data` handed to the chart: the values of the points. -/
def series (off now : Int) (orders : List ChartOrder) : List ℚ :=
  (aggregated off now orders).map Point.value

/-- String keys of the identifiers that are present, in record order. -/
def customerKeys (ids : List CustomerId) : List String :=
  (ids.filter CustomerId.truthy).map CustomerId.toStr

/-- The records `getTodaySummary` counts: today's per-transaction records when there is at
least one, otherwise today's legacy rows; given by their customer identifiers. -/
def countedIds (off now : Int) (orderRecords : List OrderRecord) (orders : List Order) :
    List CustomerId :=
  if todaysOrderRecords off now orderRecords ≠ [] then
    (todaysOrderRecords off now orderRecords).map OrderRecord.customerId
  else
    (todaysOrders off now orders).map Order.customerId

/-! ## Sample data -/

/-- The instant 2024-01-03T04:00:00Z, a Wednesday (12:00 local time at UTC+8). -/
def sampleNow : Int := 1704254400000

/-- Three per-transaction records on a UTC+8 host: two created on the local day of
`sampleNow` by the same customer in two representations, one created the day before. -/
def sampleRecords : List OrderRecord :=
  [⟨"r1", some [⟨some "A", some 2⟩, ⟨some "B", some 3⟩], some 40, some "cash",
      some 1704250000000, .str "c1", none⟩,
   ⟨"r2", some [⟨some "C", none⟩], none, none, some 1704251000000, .objectId "c1", none⟩,
   ⟨"r0", some [], some 7, none, some 1704200000000, .str "c9", none⟩]

/-- Two legacy rows created on the local day of `sampleNow`. -/
def sampleLegacy : List Order :=
  [⟨some 10, some 3, .str "c2", some 1704250000000⟩,
   ⟨some 5, none, .missing, some 1704252000000⟩]

/-- Record without a customer, created on the local day of `sampleNow`. -/
def anonymousRecord : OrderRecord :=
  ⟨"r3", some [], some 1, none, some 1704253000000, .str "", none⟩

/-- Legacy row without a customer, created on the local day of `sampleNow`. -/
def anonymousOrder : Order := ⟨some 1, some 1, .missing, some 1704253000000⟩

/-- The scenario record of the feed: items `A` (qty 2) and `B` (qty 3), total 40. -/
def twoItemRecord : OrderRecord :=
  ⟨"r1", some [⟨some "A", some 2⟩, ⟨some "B", some 3⟩], some 40, some "cash",
    some 1704250000000, .str "c1", none⟩

/-- Record with neither an items list nor a total. -/
def bareRecord : OrderRecord :=
  ⟨"r7", none, none, none, some 1704250500000, .missing, none⟩

/-- What the normalisation must yield for a record `r` whose items list is `items`. -/
def NormalizedAs (r : OrderRecord) (x : RecentOrder) : Prop :=
  ∃ items : List Item, r.items = some items ∧
    x.quantity = (items.map (fun it => it.qty.getD 0)).sum ∧
    (∀ it : Item, items = [it] → x.itemName = it.name) ∧
    (items.length ≠ 1 → x.itemName = some (toString items.length ++ " items")) ∧
    x.totalAmount = r.total.getD 0 ∧
    x._id = r._id ∧ x.createdAt = r.createdAt ∧ x.paymentMethod = r.paymentMethod.getD ""

/-- Two `Sales` documents of the same day and one of the day before. -/
def sampleSales : List SalesDoc :=
  [⟨some "2024-01-03", some 30⟩, ⟨some "2024-01-02", some 5⟩, ⟨some "2024-01-03", some 12⟩]

/-- Day number of the Monday the window must start on: from the local day of `now`, back
6 days when `now` is a Sunday and back `dayOfWeek - 1` days otherwise. -/
def mondayDay (off now : Int) : Int :=
  localDay off now - (if getDay off now = 0 then 6 else getDay off now - 1)

/-- Sum of the amounts of the orders whose day key is `k`. -/
def dayTotal (orders : List ChartOrder) (k : String) : ℚ :=
  ((orders.filter (fun o => decide (orderDateStr o = some k))).map orderAmount).sum

/-- The first value among `totalAmount`, `amount`, `total` that is present (neither
`undefined` nor `null`), and 0 when none is. -/
def firstPresentAmount (o : ChartOrder) : ℚ :=
  match o.totalAmount, o.amount, o.total with
  | some v, _, _ => v
  | none, some v, _ => v
  | none, none, some v => v
  | none, none, none => 0

/-- Local midnight (UTC+8) of Sunday 2023-01-01, the instant 2022-12-31T16:00:00Z. -/
def sundayMidnight : Int := 1672502400000

/-- Order created 2023-12-31T02:00:00Z, Sunday 10:00 local time at UTC+8, the day before
the week of `sampleNow` starts; amount 100. -/
def sundayOrder : ChartOrder := ⟨some 1703988000000, none, some 100, none, none⟩

/-- Order created 2024-01-01T02:00:00Z, Monday 10:00 local time at UTC+8; amount 100. -/
def mondayOrder : ChartOrder := ⟨some 1704074400000, none, some 100, none, none⟩

/-- Order created 2024-01-03T02:00:00Z, Wednesday 10:00 local time at UTC+8; amount 50. -/
def wednesdayOrder : ChartOrder := ⟨some 1704247200000, none, some 50, none, none⟩

/-- Order created at `sampleNow` with `totalAmount` 0 and `amount` 50. -/
def zeroTotalOrder : ChartOrder := ⟨some 1704254400000, none, some 0, some 50, none⟩

/-- Order created at `sampleNow` with only the `total` field, 30. -/
def totalOnlyOrder : ChartOrder := ⟨some 1704254400000, none, none, none, some 30⟩

/-! ## Auxiliary facts -/

theorem orZero_eq_getD (x : Option ℚ) : orZero x = x.getD 0 := by
  cases x with
  | none => rfl
  | some v => by_cases h : v = 0 <;> simp [orZero, h]

theorem foldl_add_eq_sum {α : Type} (f : α → ℚ) (l : List α) (a : ℚ) :
    l.foldl (fun s o => s + f o) a = a + (l.map f).sum := by
  induction l generalizing a with
  | nil => simp
  | cons x xs ih => simp [ih, add_assoc]

theorem addCustomers_eq_foldl_keys (s : List String) (ids : List CustomerId) :
    addCustomers s ids = (customerKeys ids).foldl setAdd s := by
  induction ids generalizing s with
  | nil => rfl
  | cons c cs ih =>
    cases h : c.truthy with
    | true => simp [addCustomers, customerKeys, h] at ih ⊢; exact ih _
    | false => simp [addCustomers, customerKeys, h] at ih ⊢; exact ih _

theorem mem_setAdd (s : List String) (x y : String) : y ∈ setAdd s x ↔ y ∈ s ∨ y = x := by
  unfold setAdd
  split
  · constructor
    · intro h; exact Or.inl h
    · rintro (h | h)
      · exact h
      · subst h; assumption
  · simp

theorem setAdd_nodup (s : List String) (x : String) (h : s.Nodup) : (setAdd s x).Nodup := by
  unfold setAdd
  split
  · exact h
  · rename_i hx
    rw [List.nodup_append]
    refine ⟨h, List.nodup_singleton x, ?_⟩
    intro a ha hb
    simp at hb
    subst hb
    exact hx ha

theorem foldl_setAdd_nodup (keys s : List String) (h : s.Nodup) :
    (keys.foldl setAdd s).Nodup := by
  induction keys generalizing s with
  | nil => exact h
  | cons k ks ih => exact ih _ (setAdd_nodup s k h)

theorem mem_foldl_setAdd (keys s : List String) (y : String) :
    y ∈ keys.foldl setAdd s ↔ y ∈ s ∨ y ∈ keys := by
  induction keys generalizing s with
  | nil => simp
  | cons k ks ih =>
    simp only [List.foldl_cons, ih, mem_setAdd, List.mem_cons]
    tauto

theorem setAdd_length_le (s : List String) (x : String) : (setAdd s x).length ≤ s.length + 1 := by
  unfold setAdd
  split <;> simp

theorem foldl_setAdd_length_le (keys s : List String) :
    (keys.foldl setAdd s).length ≤ s.length + keys.length := by
  induction keys generalizing s with
  | nil => simp
  | cons k ks ih =>
    have h1 := ih (setAdd s k)
    have h2 := setAdd_length_le s k
    simp only [List.foldl_cons, List.length_cons]
    omega

/-- The size of the customer set is the number of distinct keys. -/
theorem addCustomers_length (ids : List CustomerId) :
    (addCustomers [] ids).length = (customerKeys ids).toFinset.card := by
  rw [addCustomers_eq_foldl_keys]
  rw [← List.toFinset_card_of_nodup (foldl_setAdd_nodup _ [] List.nodup_nil)]
  congr 1
  ext y
  simp [mem_foldl_setAdd]

theorem addCustomers_length_le (ids : List CustomerId) :
    (addCustomers [] ids).length ≤ ids.length := by
  rw [addCustomers_eq_foldl_keys]
  have h := foldl_setAdd_length_le (customerKeys ids) []
  have h2 : (customerKeys ids).length ≤ ids.length := by
    unfold customerKeys
    rw [List.length_map]
    exact List.length_filter_le _ _
  simp at h
  omega

theorem getTodaySummary_of_ne_nil (off now : Int) (rs : List OrderRecord) (ls : List Order)
    (h : todaysOrderRecords off now rs ≠ []) :
    getTodaySummary off now rs ls =
      ⟨(todaysOrderRecords off now rs).foldl (fun s o => s + orZero o.total) 0,
       (addCustomers [] ((todaysOrderRecords off now rs).map OrderRecord.customerId)).length,
       (todaysOrderRecords off now rs).length,
       if (todaysOrderRecords off now rs).length > 0 then
         (todaysOrderRecords off now rs).foldl (fun s o => s + orZero o.total) 0
           / (((todaysOrderRecords off now rs).length : Nat) : ℚ)
       else 0⟩ := by
  have h2 : (todaysOrderRecords off now rs).length ≠ 0 := by simpa using h
  simp only [getTodaySummary, h2, ne_eq, not_false_eq_true, if_true]

theorem getTodaySummary_of_eq_nil (off now : Int) (rs : List OrderRecord) (ls : List Order)
    (h : todaysOrderRecords off now rs = []) :
    getTodaySummary off now rs ls =
      ⟨(todaysOrders off now ls).foldl (fun s o => s + orZero o.price * orZero o.qty) 0,
       (addCustomers [] ((todaysOrders off now ls).map Order.customerId)).length,
       (todaysOrders off now ls).length,
       if (todaysOrders off now ls).length > 0 then
         (todaysOrders off now ls).foldl (fun s o => s + orZero o.price * orZero o.qty) 0
           / (((todaysOrders off now ls).length : Nat) : ℚ)
       else 0⟩ := by
  simp only [getTodaySummary, h, List.length_nil, ne_eq, not_true_eq_false, if_false]

theorem getTodaySummary_totalCustomers (off now : Int) (rs : List OrderRecord)
    (ls : List Order) :
    (getTodaySummary off now rs ls).totalCustomers
      = (addCustomers [] (countedIds off now rs ls)).length := by
  by_cases h : todaysOrderRecords off now rs = []
  · rw [getTodaySummary_of_eq_nil off now rs ls h]; simp [countedIds, h]
  · rw [getTodaySummary_of_ne_nil off now rs ls h]; simp [countedIds, h]

theorem getTodaySummary_totalOrders (off now : Int) (rs : List OrderRecord)
    (ls : List Order) :
    (getTodaySummary off now rs ls).totalOrders = (countedIds off now rs ls).length := by
  by_cases h : todaysOrderRecords off now rs = []
  · rw [getTodaySummary_of_eq_nil off now rs ls h]; simp [countedIds, h]
  · rw [getTodaySummary_of_ne_nil off now rs ls h]; simp [countedIds, h]

/-- The cutoff `today` is the first instant of the local calendar day of `now`. -/
theorem setHoursZero_spec (off now : Int) :
    localDay off (setHoursZero off now) = localDay off now ∧
    localTimeInDay off (setHoursZero off now) = 0 ∧
    setHoursZero off now ≤ now ∧ now < setHoursZero off now + msPerDay := by
  simp only [localDay, setHoursZero, localTimeInDay, fromLocal, localTime, dayOf, msPerDay,
    msPerMinute]
  refine ⟨?_, ?_, ?_, ?_⟩ <;> omega

/-- Today's records are exactly the stored records created at or after the cutoff. -/
theorem mem_todaysOrderRecords (off now : Int) (rs : List OrderRecord) (r : OrderRecord) :
    r ∈ todaysOrderRecords off now rs ↔
      r ∈ rs ∧ ∃ t, r.createdAt = some t ∧ setHoursZero off now ≤ t := by
  unfold todaysOrderRecords findSince
  rw [List.mem_filter]
  cases h : r.createdAt <;> simp

theorem findSince_append {α : Type} (f : α → Option Int) (t : Int) (a b : List α) :
    findSince f t (a ++ b) = findSince f t a ++ findSince f t b := by
  simp [findSince]

theorem findSince_cons {α : Type} (f : α → Option Int) (t : Int) (x : α) (b : List α) :
    findSince f t (x :: b) = findSince f t [x] ++ findSince f t b := by
  rw [← findSince_append]; rfl

theorem findSince_singleton {α : Type} (f : α → Option Int) (t : Int) (x : α) :
    findSince f t [x] = [x] ∨ findSince f t [x] = [] := by
  unfold findSince
  rw [List.filter_singleton]
  cases (match f x with
    | some t0 => decide (t ≤ t0)
    | none => false) <;> simp

/-! ## Today summary -/

/-- C1: source precedence of `getTodaySummary`. Let `T` be today's per-transaction records,
that is the stored records created at or after local midnight of `now`, and `L` today's
legacy rows. When `T` is non-empty, `totalOrders` is the length of `T`, `totalSales` is the
sum of `total` over `T` (missing counted as 0) and the whole result is the same for every
legacy collection; when `T` is empty, `totalOrders` is the length of `L` and `totalSales`
the sum of `price * qty` over `L`. -/
theorem getTodaySummary_source_precedence (off now : Int) (rs : List OrderRecord)
    (ls : List Order) :
    (∀ r, r ∈ todaysOrderRecords off now rs ↔
      r ∈ rs ∧ ∃ t, r.createdAt = some t ∧ localDay off now * msPerDay ≤ localTime off t) ∧
    (todaysOrderRecords off now rs ≠ [] →
      (getTodaySummary off now rs ls).totalOrders = (todaysOrderRecords off now rs).length ∧
      (getTodaySummary off now rs ls).totalSales
        = ((todaysOrderRecords off now rs).map (fun o => o.total.getD 0)).sum ∧
      ∀ ls2 : List Order, getTodaySummary off now rs ls2 = getTodaySummary off now rs ls) ∧
    (todaysOrderRecords off now rs = [] →
      (getTodaySummary off now rs ls).totalOrders = (todaysOrders off now ls).length ∧
      (getTodaySummary off now rs ls).totalSales
        = ((todaysOrders off now ls).map (fun o => o.price.getD 0 * o.qty.getD 0)).sum) := by
  refine ⟨?_, ?_, ?_⟩
  · intro r
    rw [mem_todaysOrderRecords]
    simp only [setHoursZero, fromLocal, localTime]
    constructor
    · rintro ⟨hr, t, ht, hle⟩
      exact ⟨hr, t, ht, by omega⟩
    · rintro ⟨hr, t, ht, hle⟩
      exact ⟨hr, t, ht, by omega⟩
  · intro h
    refine ⟨?_, ?_, ?_⟩
    · rw [getTodaySummary_of_ne_nil off now rs ls h]
    · rw [getTodaySummary_of_ne_nil off now rs ls h]
      simp only [foldl_add_eq_sum, zero_add, orZero_eq_getD]
    · intro ls2
      rw [getTodaySummary_of_ne_nil off now rs ls h, getTodaySummary_of_ne_nil off now rs ls2 h]
  · intro h
    rw [getTodaySummary_of_eq_nil off now rs ls h]
    refine ⟨rfl, ?_⟩
    simp only [foldl_add_eq_sum, zero_add, orZero_eq_getD]

/-- C2: `avgSale` is `totalSales / totalOrders` when `totalOrders > 0` and `0` when
`totalOrders = 0`, on both paths of `getTodaySummary`. -/
theorem getTodaySummary_avgSale (off now : Int) (rs : List OrderRecord) (ls : List Order) :
    (0 < (getTodaySummary off now rs ls).totalOrders →
      (getTodaySummary off now rs ls).avgSale
        = (getTodaySummary off now rs ls).totalSales
            / (((getTodaySummary off now rs ls).totalOrders : Nat) : ℚ)) ∧
    ((getTodaySummary off now rs ls).totalOrders = 0 →
      (getTodaySummary off now rs ls).avgSale = 0) := by
  by_cases h : todaysOrderRecords off now rs = []
  · rw [getTodaySummary_of_eq_nil off now rs ls h]
    constructor
    · intro hp; simp only at hp ⊢; rw [if_pos hp]
    · intro hz; simp only at hz ⊢; rw [hz]; simp
  · rw [getTodaySummary_of_ne_nil off now rs ls h]
    constructor
    · intro hp; simp only at hp ⊢; rw [if_pos hp]
    · intro hz; simp only at hz ⊢; rw [hz]; simp

theorem countedIds_insert_record (off now : Int) (pre post : List OrderRecord)
    (r : OrderRecord) (ls : List Order) (hr : r.customerId.truthy = false) :
    (addCustomers [] (countedIds off now (pre ++ r :: post) ls)).length
      ≤ (addCustomers [] (countedIds off now (pre ++ post) ls)).length := by
  have hsplit : todaysOrderRecords off now (pre ++ r :: post)
      = todaysOrderRecords off now pre ++ (todaysOrderRecords off now [r]
          ++ todaysOrderRecords off now post) := by
    unfold todaysOrderRecords
    rw [findSince_append, findSince_cons]
  have hsplit0 : todaysOrderRecords off now (pre ++ post)
      = todaysOrderRecords off now pre ++ todaysOrderRecords off now post := by
    unfold todaysOrderRecords
    rw [findSince_append]
  rcases findSince_singleton OrderRecord.createdAt (setHoursZero off now) r with h1 | h1
  · have h1r : todaysOrderRecords off now [r] = [r] := h1
    by_cases h0 : todaysOrderRecords off now (pre ++ post) = []
    · have hp : todaysOrderRecords off now pre = [] := by
        rw [hsplit0] at h0; exact (List.append_eq_nil.mp h0).1
      have hq : todaysOrderRecords off now post = [] := by
        rw [hsplit0] at h0; exact (List.append_eq_nil.mp h0).2
      have : countedIds off now (pre ++ r :: post) ls = [r.customerId] := by
        simp [countedIds, hsplit, hp, hq, h1r]
      rw [this]
      simp [addCustomers, hr]
    · have hne : todaysOrderRecords off now (pre ++ r :: post) ≠ [] := by
        rw [hsplit, h1r]; simp
      rw [addCustomers_eq_foldl_keys, addCustomers_eq_foldl_keys]
      have : customerKeys (countedIds off now (pre ++ r :: post) ls)
          = customerKeys (countedIds off now (pre ++ post) ls) := by
        simp only [countedIds, hne, h0, ne_eq, not_false_eq_true, if_true]
        rw [hsplit, hsplit0, h1r]
        simp [customerKeys, List.filter_cons, hr]
      rw [this]
  · have h1r : todaysOrderRecords off now [r] = [] := h1
    have : todaysOrderRecords off now (pre ++ r :: post)
        = todaysOrderRecords off now (pre ++ post) := by
      rw [hsplit, hsplit0, h1r]; simp
    simp only [countedIds, this]
    exact le_refl _

theorem countedIds_insert_order (off now : Int) (rs : List OrderRecord)
    (pre post : List Order) (o : Order) (ho : o.customerId.truthy = false) :
    (addCustomers [] (countedIds off now rs (pre ++ o :: post))).length
      = (addCustomers [] (countedIds off now rs (pre ++ post))).length := by
  rw [addCustomers_eq_foldl_keys, addCustomers_eq_foldl_keys]
  have : customerKeys (countedIds off now rs (pre ++ o :: post))
      = customerKeys (countedIds off now rs (pre ++ post)) := by
    by_cases h : todaysOrderRecords off now rs = []
    · simp only [countedIds, h, ne_eq, not_true_eq_false, if_false]
      unfold todaysOrders
      rw [findSince_append, findSince_cons, findSince_append]
      rcases findSince_singleton Order.createdAt (setHoursZero off now) o with h1 | h1
      · rw [h1]; simp [customerKeys, List.filter_cons, ho]
      · rw [h1]; simp
    · simp only [countedIds, h, ne_eq, not_false_eq_true, if_true]
  rw [this]

/-- C3: in every result of `getTodaySummary`, `totalCustomers ≤ totalOrders`;
`totalCustomers` is the number of distinct `String(customerId)` values among the counted
records that have a `customerId`; and inserting, anywhere in either collection, a record
whose `customerId` is absent (missing or empty) never increases `totalCustomers`. -/
theorem getTodaySummary_totalCustomers_spec (off now : Int) (rs : List OrderRecord)
    (ls : List Order) :
    (getTodaySummary off now rs ls).totalCustomers ≤ (getTodaySummary off now rs ls).totalOrders ∧
    (getTodaySummary off now rs ls).totalCustomers
      = (((countedIds off now rs ls).filter CustomerId.truthy).map
          CustomerId.toStr).toFinset.card ∧
    (∀ (pre post : List OrderRecord) (r : OrderRecord), rs = pre ++ post →
      r.customerId.truthy = false →
      (getTodaySummary off now (pre ++ r :: post) ls).totalCustomers
        ≤ (getTodaySummary off now rs ls).totalCustomers) ∧
    (∀ (pre post : List Order) (o : Order), ls = pre ++ post →
      o.customerId.truthy = false →
      (getTodaySummary off now rs (pre ++ o :: post)).totalCustomers
        ≤ (getTodaySummary off now rs ls).totalCustomers) := by
  refine ⟨?_, ?_, ?_, ?_⟩
  · rw [getTodaySummary_totalCustomers, getTodaySummary_totalOrders]
    exact addCustomers_length_le _
  · rw [getTodaySummary_totalCustomers, addCustomers_length]
    rfl
  · intro pre post r hrs hr
    subst hrs
    rw [getTodaySummary_totalCustomers, getTodaySummary_totalCustomers]
    exact countedIds_insert_record off now pre post r ls hr
  · intro pre post o hls ho
    subst hls
    rw [getTodaySummary_totalCustomers, getTodaySummary_totalCustomers]
    exact le_of_eq (countedIds_insert_order off now rs pre post o ho)

/-- Witness for C1 on the sample collections: the per-transaction path (two records today)
and the legacy path (no per-transaction record). -/
theorem getTodaySummary_source_precedence_witness :
    (todaysOrderRecords 480 sampleNow sampleRecords ≠ [] ∧
      ((getTodaySummary 480 sampleNow sampleRecords sampleLegacy).totalOrders
          = (todaysOrderRecords 480 sampleNow sampleRecords).length ∧
        (getTodaySummary 480 sampleNow sampleRecords sampleLegacy).totalSales
          = ((todaysOrderRecords 480 sampleNow sampleRecords).map
              (fun o => o.total.getD 0)).sum ∧
        ∀ ls2 : List Order, getTodaySummary 480 sampleNow sampleRecords ls2
          = getTodaySummary 480 sampleNow sampleRecords sampleLegacy)) ∧
    getTodaySummary 480 sampleNow sampleRecords sampleLegacy = ⟨40, 1, 2, 20⟩ ∧
    getTodaySummary 480 sampleNow [] sampleLegacy = ⟨30, 1, 2, 15⟩ ∧
    (todaysOrderRecords 480 sampleNow [] = [] ∧
      ((getTodaySummary 480 sampleNow [] sampleLegacy).totalOrders
          = (todaysOrders 480 sampleNow sampleLegacy).length ∧
        (getTodaySummary 480 sampleNow [] sampleLegacy).totalSales
          = ((todaysOrders 480 sampleNow sampleLegacy).map
              (fun o => o.price.getD 0 * o.qty.getD 0)).sum)) :=
  ⟨⟨by decide,
    (getTodaySummary_source_precedence 480 sampleNow sampleRecords sampleLegacy).2.1
      (by decide)⟩,
   by decide!, by decide!,
   ⟨rfl, (getTodaySummary_source_precedence 480 sampleNow [] sampleLegacy).2.2 rfl⟩⟩

/-- Witness for C2 on the sample collections (two orders) and on empty collections. -/
theorem getTodaySummary_avgSale_witness :
    (0 < (getTodaySummary 480 sampleNow sampleRecords sampleLegacy).totalOrders ∧
      (getTodaySummary 480 sampleNow sampleRecords sampleLegacy).avgSale
        = (getTodaySummary 480 sampleNow sampleRecords sampleLegacy).totalSales
            / (((getTodaySummary 480 sampleNow sampleRecords sampleLegacy).totalOrders : Nat) : ℚ)) ∧
    ((getTodaySummary 480 sampleNow [] []).totalOrders = 0 ∧
      (getTodaySummary 480 sampleNow [] []).avgSale = 0) :=
  ⟨⟨by decide,
    (getTodaySummary_avgSale 480 sampleNow sampleRecords sampleLegacy).1 (by decide)⟩,
   ⟨by decide, (getTodaySummary_avgSale 480 sampleNow [] []).2 (by decide)⟩⟩

/-- Witness for C3: inserting a customer-less record, or a customer-less legacy row, into
the sample collections. -/
theorem getTodaySummary_totalCustomers_spec_witness :
    (anonymousRecord.customerId.truthy = false ∧
      (getTodaySummary 480 sampleNow ([] ++ anonymousRecord :: sampleRecords)
          sampleLegacy).totalCustomers
        ≤ (getTodaySummary 480 sampleNow sampleRecords sampleLegacy).totalCustomers) ∧
    (anonymousOrder.customerId.truthy = false ∧
      (getTodaySummary 480 sampleNow [] ([] ++ anonymousOrder :: sampleLegacy)).totalCustomers
        ≤ (getTodaySummary 480 sampleNow [] sampleLegacy).totalCustomers) :=
  ⟨⟨by decide,
    (getTodaySummary_totalCustomers_spec 480 sampleNow sampleRecords sampleLegacy).2.2.1
      [] sampleRecords anonymousRecord rfl (by decide)⟩,
   ⟨by decide,
    (getTodaySummary_totalCustomers_spec 480 sampleNow [] sampleLegacy).2.2.2
      [] sampleLegacy anonymousOrder rfl (by decide)⟩⟩

/-! ## Recent orders -/

theorem normalizeRecord_eq_of_items (r : OrderRecord) (items : List Item)
    (h : r.items = some items) :
    normalizeRecord r = .ok ⟨r._id,
      if items.length = 1 then (items.head?).bind Item.name
      else some (toString items.length ++ " items"),
      items.foldl (fun s it => s + orZero it.qty) 0, orZero r.total, orEmpty r.paymentMethod,
      r.createdAt, if r.customerId.truthy then r.customerId else .missing⟩ := by
  simp only [normalizeRecord, h, Option.getD_some]
  by_cases h1 : items.length = 1
  · simp only [h1, if_true]
  · simp only [h1, if_false]

theorem normalizeRecord_of_items (r : OrderRecord) (items : List Item)
    (h : r.items = some items) :
    ∃ x, normalizeRecord r = .ok x ∧ NormalizedAs r x := by
  refine ⟨_, normalizeRecord_eq_of_items r items h, items, h, ?_⟩
  refine ⟨?_, ?_, ?_, ?_, rfl, rfl, ?_⟩
  · simp [foldl_add_eq_sum, orZero_eq_getD]
  · intro it hit; subst hit; rfl
  · intro hne; simp only [hne, if_false]
  · exact orZero_eq_getD _
  · cases r.paymentMethod <;> rfl

theorem normalizeAll_of_items (recs : List OrderRecord)
    (h : ∀ r ∈ recs, r.items ≠ none) :
    ∃ out, normalizeAll recs = .ok out ∧ List.Forall₂ NormalizedAs recs out := by
  induction recs with
  | nil => exact ⟨[], rfl, List.Forall₂.nil⟩
  | cons r rs ih =>
    obtain ⟨out, hout, hall⟩ := ih (fun x hx => h x (List.mem_cons_of_mem _ hx))
    have hr : r.items ≠ none := h r (List.mem_cons_self _ _)
    obtain ⟨items, hitems⟩ := Option.ne_none_iff_exists'.mp hr
    obtain ⟨x, hx, hnorm⟩ := normalizeRecord_of_items r items hitems
    refine ⟨x :: out, ?_, List.Forall₂.cons hnorm hall⟩
    simp only [normalizeAll, hx, hout]

/-- C7: when every record returned by the query has an items list, `getRecentOrders`
returns one entry per record, in the same order, with `quantity` the sum of `qty` over the
items (missing as 0), `itemName` the single item's name when there is exactly one item and
`"<count> items"` otherwise, and `totalAmount` the record's own `total` (0 when missing). -/
theorem getRecentOrders_normalizes (coll : List OrderRecord) (storeId : Option String)
    (limit : Nat) (h : ∀ r ∈ findRecent coll storeId limit, r.items ≠ none) :
    ∃ out, getRecentOrders coll storeId limit = .ok out ∧
      out.length = (findRecent coll storeId limit).length ∧
      List.Forall₂ NormalizedAs (findRecent coll storeId limit) out := by
  obtain ⟨out, hout, hall⟩ := normalizeAll_of_items (findRecent coll storeId limit) h
  exact ⟨out, hout, hall.length_eq.symm, hall⟩

/-- Witness for C7: the scenario record (items `A` qty 2 and `B` qty 3, total 40) is
normalised to `"2 items"`, quantity 5, total amount 40. -/
theorem getRecentOrders_normalizes_witness :
    (∀ r ∈ findRecent [twoItemRecord] none 10, r.items ≠ none) ∧
    (∃ out, getRecentOrders [twoItemRecord] none 10 = .ok out ∧
      out.length = (findRecent [twoItemRecord] none 10).length ∧
      List.Forall₂ NormalizedAs (findRecent [twoItemRecord] none 10) out) ∧
    getRecentOrders [twoItemRecord] none 10
      = .ok [⟨"r1", some "2 items", 5, 40, "cash", some 1704250000000, .str "c1"⟩] :=
  ⟨by decide, getRecentOrders_normalizes [twoItemRecord] none 10 (by decide), by decide!⟩

/-- C9 (code evaluated at the failing input): a record without an items list makes the
normalisation raise a `TypeError`, and the exception rejects the whole batch, also the
well-formed record before it. -/
theorem getRecentOrders_missing_items_raises :
    bareRecord.items = none ∧ bareRecord.total = none ∧
    normalizeRecord bareRecord
      = .error (.typeError "Cannot read properties of undefined (reading length)") ∧
    getRecentOrders [bareRecord, twoItemRecord] none 10
      = .error (.typeError "Cannot read properties of undefined (reading length)") ∧
    (∃ out, getRecentOrders [twoItemRecord] none 10 = .ok out) :=
  ⟨rfl, rfl, by decide!, by decide!,
    ⟨[⟨"r1", some "2 items", 5, 40, "cash", some 1704250000000, .str "c1"⟩], by decide!⟩⟩

/-! ## Weekly sales -/

theorem addToGroup_ne_nil (k : Option String) (v : ℚ) (rows : List Row) :
    addToGroup k v rows ≠ [] := by
  cases rows with
  | nil => simp [addToGroup]
  | cons r rs =>
    unfold addToGroup
    split
    · simp
    · split <;> simp

theorem foldl_addToGroup_ne_nil (docs : List (Option String × ℚ)) (acc : List Row)
    (h : acc ≠ []) : docs.foldl (fun acc d => addToGroup d.1 d.2 acc) acc ≠ [] := by
  induction docs generalizing acc with
  | nil => exact h
  | cons d ds ih => exact ih _ (addToGroup_ne_nil d.1 d.2 acc)

theorem groupSum_ne_nil (docs : List (Option String × ℚ)) (h : docs ≠ []) :
    groupSum docs ≠ [] := by
  cases docs with
  | nil => exact absurd rfl h
  | cons d ds => exact foldl_addToGroup_ne_nil ds _ (addToGroup_ne_nil d.1 d.2 [])

theorem orderRecordPipeline_ne_nil (recs : List OrderRecord) (h : recs ≠ []) :
    orderRecordPipeline recs ≠ [] := by
  apply groupSum_ne_nil
  simpa using h

/-- C8: fallback precedence of `getWeeklySales`. The rows of the pre-aggregated source are
returned when that source succeeds with at least one row; when it succeeds with no rows or
fails, the result is the outcome of the per-transaction day grouping, the same in both
cases, so the failure of the pre-aggregated source is not propagated; and when it fails
while a non-empty list of transactions is available, the result is the non-empty
day-grouped series. -/
theorem getWeeklySales_fallback (sales : Except DbError (List SalesDoc))
    (orderRecords : Except DbError (List OrderRecord)) :
    (∀ docs, sales = .ok docs → salesPipeline docs ≠ [] →
      getWeeklySales sales orderRecords = .ok (salesPipeline docs)) ∧
    (∀ docs, sales = .ok docs → salesPipeline docs = [] →
      getWeeklySales sales orderRecords = orderRecordAggregate orderRecords) ∧
    (∀ e, sales = .error e →
      getWeeklySales sales orderRecords = orderRecordAggregate orderRecords ∧
      getWeeklySales sales orderRecords = getWeeklySales (.ok []) orderRecords) ∧
    (∀ e recs, sales = .error e → orderRecords = .ok recs → recs ≠ [] →
      getWeeklySales sales orderRecords = .ok (orderRecordPipeline recs) ∧
      orderRecordPipeline recs ≠ []) := by
  refine ⟨?_, ?_, ?_, ?_⟩
  · intro docs hs hne
    subst hs
    have : (salesPipeline docs).length ≠ 0 := by simpa using hne
    simp only [getWeeklySales, this, ne_eq, not_false_eq_true, if_true]
  · intro docs hs he
    subst hs
    simp only [getWeeklySales, he, List.length_nil, ne_eq, not_true_eq_false, if_false]
  · intro e hs
    subst hs
    exact ⟨rfl, rfl⟩
  · intro e recs hs hr hne
    subst hs; subst hr
    exact ⟨rfl, orderRecordPipeline_ne_nil recs hne⟩

/-- Witness for C8: the pre-aggregated source with rows, with no rows, and failing, against
the sample transactions. -/
theorem getWeeklySales_fallback_witness :
    (salesPipeline sampleSales ≠ [] ∧
      getWeeklySales (.ok sampleSales) (.ok sampleRecords) = .ok (salesPipeline sampleSales)) ∧
    (salesPipeline [] = [] ∧
      getWeeklySales (.ok []) (.ok sampleRecords)
        = orderRecordAggregate (.ok sampleRecords)) ∧
    (sampleRecords ≠ [] ∧
      getWeeklySales (.error (.failure "Sales unavailable")) (.ok sampleRecords)
        = .ok (orderRecordPipeline sampleRecords) ∧
      orderRecordPipeline sampleRecords ≠ []) :=
  ⟨⟨by decide!,
    (getWeeklySales_fallback (.ok sampleSales) (.ok sampleRecords)).1 sampleSales rfl
      (by decide!)⟩,
   ⟨rfl, (getWeeklySales_fallback (.ok []) (.ok sampleRecords)).2.1 [] rfl rfl⟩,
   ⟨by decide,
    (getWeeklySales_fallback (.error (.failure "Sales unavailable")) (.ok sampleRecords)).2.2.2
      (.failure "Sales unavailable") sampleRecords rfl rfl (by decide)⟩⟩

/-! ## Weekly window -/

/-- The calendar date of every day number has a month in 1..12 and a day in 1..31. -/
theorem civilFromDays_bounds (z : Int) :
    1 ≤ (civilFromDays z).month ∧ (civilFromDays z).month ≤ 12 ∧
    1 ≤ (civilFromDays z).day ∧ (civilFromDays z).day ≤ 31 := by
  simp only [civilFromDays]
  refine ⟨?_, ?_, ?_, ?_⟩ <;> (try split) <;> omega

theorem setDate_getDate_add (off t k : Int) :
    setDate off t (getDate off t + k) = t + k * msPerDay := by
  unfold setDate
  generalize getDate off t = g
  simp only [fromLocal, localDay, localTimeInDay, localTime, dayOf, msPerDay, msPerMinute]
  omega

theorem localDay_add_days (off t k : Int) :
    localDay off (t + k * msPerDay) = localDay off t + k := by
  simp only [localDay, localTime, dayOf, msPerDay, msPerMinute]
  omega

theorem localDay_fromLocal_midnight (off day : Int) :
    localDay off (fromLocal off (day * msPerDay)) = day ∧
    localTimeInDay off (fromLocal off (day * msPerDay)) = 0 := by
  simp only [localDay, localTimeInDay, fromLocal, localTime, dayOf, msPerDay, msPerMinute]
  constructor <;> omega

theorem getMonday_eq (off now : Int) :
    getMonday off now = fromLocal off (mondayDay off now * msPerDay) := by
  simp only [getMonday, setDate_getDate_add, setHoursZero, localDay_add_days, mondayDay]
  congr 2
  split <;> omega

theorem weekDays_eq (off now : Int) :
    weekDays off now
      = (List.range 7).map (fun (i : Nat) => fromLocal off ((mondayDay off now + (i : Int)) * msPerDay)) := by
  simp only [weekDays, setDate_getDate_add, getMonday_eq]
  apply List.map_congr_left
  intro i _
  simp only [fromLocal, msPerDay, msPerMinute]
  omega

theorem weekDay_mondayDay (off now : Int) :
    weekDay (mondayDay off now) = 1 ∧ weekDay (mondayDay off now + 6) = 0 ∧
    mondayDay off now ≤ localDay off now ∧ localDay off now ≤ mondayDay off now + 6 := by
  simp only [mondayDay, getDay, weekDay]
  refine ⟨?_, ?_, ?_, ?_⟩ <;> split <;> omega

/-- C4: for every `now` and zone offset the weekly window builder emits exactly 7 points,
for the 7 consecutive local calendar days starting at the Monday reached from `now` by
stepping back 6 days on a Sunday and `dayOfWeek - 1` days otherwise: each `days[i]` is local
midnight of day `monday + i`, each label is the label of that day, the first day is a
Monday, the last a Sunday, and the local day of `now` is one of the seven. -/
theorem aggregated_week_window (off now : Int) (orders : List ChartOrder) :
    (aggregated off now orders).length = 7 ∧
    (weekDays off now).map (localDay off)
      = (List.range 7).map (fun (i : Nat) => mondayDay off now + (i : Int)) ∧
    (∀ d ∈ weekDays off now, localTimeInDay off d = 0) ∧
    (aggregated off now orders).map Point.label
      = (List.range 7).map (fun (i : Nat) => dayLabel (mondayDay off now + (i : Int))) ∧
    weekDay (mondayDay off now) = 1 ∧ weekDay (mondayDay off now + 6) = 0 ∧
    mondayDay off now ≤ localDay off now ∧ localDay off now ≤ mondayDay off now + 6 := by
  refine ⟨?_, ?_, ?_, ?_, weekDay_mondayDay off now⟩
  · simp only [aggregated, weekDays, List.length_map, List.length_range]
  · rw [weekDays_eq, List.map_map]
    apply List.map_congr_left
    intro i _
    exact (localDay_fromLocal_midnight off _).1
  · intro d hd
    rw [weekDays_eq, List.mem_map] at hd
    obtain ⟨i, _, rfl⟩ := hd
    exact (localDay_fromLocal_midnight off _).2
  · simp only [aggregated, List.map_map]
    rw [weekDays_eq, List.map_map]
    apply List.map_congr_left
    intro i _
    simp only [Function.comp, toLocaleLabel, (localDay_fromLocal_midnight off _).1]

theorem mapGet_mapSet (m : List (String × ℚ)) (k : String) (v : ℚ) (k2 : String) :
    mapGet (mapSet m k v) k2 = if k2 = k then some v else mapGet m k2 := by
  induction m with
  | nil =>
    by_cases h : k = k2
    · subst h; simp [mapSet, mapGet]
    · have h2 : ¬ k2 = k := fun e => h e.symm
      simp [mapSet, mapGet, h, h2]
  | cons p rest ih =>
    obtain ⟨k0, v0⟩ := p
    by_cases h0 : k0 = k
    · subst h0
      by_cases h : k0 = k2
      · subst h; simp [mapSet, mapGet]
      · have h2 : ¬ k2 = k0 := fun e => h e.symm
        simp [mapSet, mapGet, h, h2]
    · by_cases h : k0 = k2
      · subst h
        simp [mapSet, mapGet, h0]
      · simp [mapSet, mapGet, h0, h, ih]

theorem mapGet_initMap_aux (days : List Int) (m : List (String × ℚ)) (k : String) :
    mapGet (days.foldl (fun m d => mapSet m (isoDateKey d) 0) m) k
      = if k ∈ days.map isoDateKey then some 0 else mapGet m k := by
  induction days generalizing m with
  | nil => simp
  | cons d ds ih =>
    simp only [List.foldl_cons, ih, mapGet_mapSet, List.map_cons, List.mem_cons]
    by_cases h1 : k ∈ ds.map isoDateKey
    · simp [h1]
    · by_cases h2 : k = isoDateKey d <;> simp [h1, h2]

theorem mapGet_initMap (days : List Int) (k : String) :
    mapGet (initMap days) k = if k ∈ days.map isoDateKey then some 0 else none := by
  unfold initMap
  rw [mapGet_initMap_aux]
  rfl

theorem orZero_some (v : ℚ) : orZero (some v) = v := by
  rw [orZero_eq_getD]; rfl

theorem isoDateKey_ne_empty (t : Int) : isoDateKey t ≠ "" := by
  intro h
  have := congrArg String.length h
  simp only [isoDateKey, isoDateString, String.length_append] at this
  have h1 : ("-" : String).length = 1 := by decide
  have h2 : ("" : String).length = 0 := by decide
  omega

theorem dayTotal_cons (o : ChartOrder) (orders : List ChartOrder) (k : String) :
    dayTotal (o :: orders) k
      = (if orderDateStr o = some k then orderAmount o else 0) + dayTotal orders k := by
  unfold dayTotal
  by_cases h : orderDateStr o = some k <;> simp [List.filter_cons, h]

theorem mapGet_foldl_addOrder (orders : List ChartOrder) (m : List (String × ℚ)) (k : String)
    (v : ℚ) (hk : k ≠ "") (hm : mapGet m k = some v) :
    mapGet (orders.foldl addOrder m) k = some (v + dayTotal orders k) := by
  induction orders generalizing m v with
  | nil => simp [dayTotal, hm]
  | cons o os ih =>
    rw [List.foldl_cons, dayTotal_cons]
    cases hd : orderDateStr o with
    | none =>
      have : addOrder m o = m := by simp [addOrder, hd]
      rw [this, ih m v hm]
      simp
    | some ds =>
      by_cases he : ds = ""
      · have : addOrder m o = m := by simp [addOrder, hd, he]
        have hne : ¬ ds = k := fun e => hk (e ▸ he)
        rw [this, ih m v hm]
        simp [hne]
      · cases hg : mapGet m ds with
        | none =>
          have : addOrder m o = m := by simp [addOrder, hd, he, hg]
          have hne : ¬ ds = k := fun e => by rw [e, hm] at hg; exact absurd hg (by simp)
          rw [this, ih m v hm]
          simp [hne]
        | some cur =>
          have : addOrder m o = mapSet m ds (orZero (some cur) + orderAmount o) := by
            simp [addOrder, hd, he, hg]
          rw [this]
          by_cases hkd : ds = k
          · subst hkd
            have hcur : cur = v := by rw [hm] at hg; exact (Option.some.inj hg).symm
            subst hcur
            rw [ih _ (orZero (some cur) + orderAmount o) (by rw [mapGet_mapSet]; simp)]
            simp [orZero_some, add_assoc]
          · have hkd2 : ¬ k = ds := fun e => hkd e.symm
            rw [ih _ v (by rw [mapGet_mapSet]; simp [hkd2, hm])]
            simp [hkd]

/-- Each point carries the sum of the amounts of the orders whose day key is the UTC date
text of that point's instant. -/
theorem aggregated_eq_dayTotal (off now : Int) (orders : List ChartOrder) :
    aggregated off now orders
      = (weekDays off now).map
          (fun d => ⟨toLocaleLabel off d, dayTotal orders (isoDateKey d)⟩) := by
  unfold aggregated
  apply List.map_congr_left
  intro d hd
  have h0 : mapGet (initMap (weekDays off now)) (isoDateKey d) = some 0 := by
    rw [mapGet_initMap, if_pos (List.mem_map_of_mem _ hd)]
  rw [mapGet_foldl_addOrder orders _ _ 0 (isoDateKey_ne_empty d) h0, orZero_some, zero_add]

theorem series_eq_dayTotal (off now : Int) (orders : List ChartOrder) :
    series off now orders
      = (weekDays off now).map (fun d => dayTotal orders (isoDateKey d)) := by
  unfold series
  rw [aggregated_eq_dayTotal, List.map_map]
  rfl

/-- Witness for C4: `now` exactly at local midnight of Sunday 2023-01-01 (UTC+8); the
window runs from Monday 26 December 2022 to Sunday 1 January 2023. -/
theorem aggregated_week_window_witness :
    getDay 480 sundayMidnight = 0 ∧ localTimeInDay 480 sundayMidnight = 0 ∧
    (aggregated 480 sundayMidnight []).length = 7 ∧
    (aggregated 480 sundayMidnight []).map Point.label
      = [⟨1, 12, 26⟩, ⟨2, 12, 27⟩, ⟨3, 12, 28⟩, ⟨4, 12, 29⟩, ⟨5, 12, 30⟩, ⟨6, 12, 31⟩,
         ⟨0, 1, 1⟩] ∧
    civilFromDays (localDay 480 sundayMidnight) = ⟨2023, 1, 1⟩ :=
  ⟨by decide, by decide, (aggregated_week_window 480 sundayMidnight []).1,
   (aggregated_week_window 480 sundayMidnight []).2.2.2.1.trans (by decide), by decide⟩

/-- C5 (code evaluated at the failing input): on a UTC+8 host, with `now` on Wednesday
2024-01-03, an order created on Sunday 2023-12-31 at 10:00 local time, the day before the
window starts, adds its amount to the Monday point; without it the series is all zero. -/
theorem series_counts_order_outside_window :
    localDay 480 1703988000000 < mondayDay 480 sampleNow ∧
    civilFromDays (localDay 480 1703988000000) = ⟨2023, 12, 31⟩ ∧
    civilFromDays (mondayDay 480 sampleNow) = ⟨2024, 1, 1⟩ ∧
    series 480 sampleNow [sundayOrder] = [100, 0, 0, 0, 0, 0, 0] ∧
    series 480 sampleNow [] = [0, 0, 0, 0, 0, 0, 0] :=
  ⟨by decide, by decide, by decide, by decide!, by decide!⟩

/-- C6 (code evaluated at the failing input): on a UTC+8 host, with `now` on Wednesday
2024-01-03 and orders of 100 on Monday 10:00 and 50 on Wednesday 10:00 local time, the
series is `[0,100,0,50,0,0,0]`: each amount lands on the point of the following day. The
same instants on a UTC host give `[100,0,50,0,0,0,0]`. -/
theorem series_shifted_on_utc_plus_8 :
    getDay 480 sampleNow = 3 ∧
    localDay 480 1704074400000 = mondayDay 480 sampleNow ∧
    localDay 480 1704247200000 = mondayDay 480 sampleNow + 2 ∧
    series 480 sampleNow [mondayOrder, wednesdayOrder] = [0, 100, 0, 50, 0, 0, 0] ∧
    series 0 sampleNow [mondayOrder, wednesdayOrder] = [100, 0, 50, 0, 0, 0, 0] :=
  ⟨by decide, by decide, by decide, by decide!, by decide!⟩

theorem orderAmount_eq_firstPresent (o : ChartOrder) : orderAmount o = firstPresentAmount o := by
  unfold orderAmount firstPresentAmount
  rw [orZero_some]
  cases o.totalAmount <;> cases o.amount <;> cases o.total <;> rfl

theorem zipWith_map_self {α β γ : Type} (f : α → β → γ) (g : α → β) (l : List α) :
    List.zipWith f l (l.map g) = l.map (fun a => f a (g a)) := by
  induction l with
  | nil => rfl
  | cons a as ih => simp [ih]

theorem dayTotal_append_singleton (orders : List ChartOrder) (o : ChartOrder) (k : String) :
    dayTotal (orders ++ [o]) k
      = if orderDateStr o = some k then dayTotal orders k + orderAmount o
        else dayTotal orders k := by
  unfold dayTotal
  by_cases h : orderDateStr o = some k <;> simp [List.filter_append, List.filter_cons, h]

/-- C10, amended: the amount of an order is the first value present (neither `undefined`
nor `null`) among `totalAmount`, `amount`, `total`, also when that value is 0, and 0 when
none is present; appending an order to the list adds exactly this amount to the points
whose day key is the order's day key and changes no other point. -/
theorem orderAmount_first_present (off now : Int) (orders : List ChartOrder)
    (o : ChartOrder) :
    orderAmount o = firstPresentAmount o ∧
    series off now (orders ++ [o])
      = List.zipWith
          (fun d v => if orderDateStr o = some (isoDateKey d) then v + firstPresentAmount o
            else v)
          (weekDays off now) (series off now orders) := by
  refine ⟨orderAmount_eq_firstPresent o, ?_⟩
  rw [series_eq_dayTotal, series_eq_dayTotal, zipWith_map_self]
  apply List.map_congr_left
  intro d _
  rw [dayTotal_append_singleton, orderAmount_eq_firstPresent]

/-- Witness for C10 as amended: an order carrying only `total = 30` adds 30 to its day, and
an order with `totalAmount = 0` and `amount = 50` adds 0. -/
theorem orderAmount_first_present_witness :
    (orderAmount totalOnlyOrder = firstPresentAmount totalOnlyOrder ∧
      series 0 sampleNow ([] ++ [totalOnlyOrder])
        = List.zipWith
            (fun d v => if orderDateStr totalOnlyOrder = some (isoDateKey d)
              then v + firstPresentAmount totalOnlyOrder else v)
            (weekDays 0 sampleNow) (series 0 sampleNow [])) ∧
    series 0 sampleNow [totalOnlyOrder] = [0, 0, 30, 0, 0, 0, 0] ∧
    firstPresentAmount zeroTotalOrder = 0 :=
  ⟨orderAmount_first_present 0 sampleNow [] totalOnlyOrder, by decide!, by decide!⟩

/-- C10, counterexample: an in-window order with `totalAmount = 0` and `amount = 50` adds 0,
not 50, to its day (Wednesday, on a UTC host). -/
theorem orderAmount_zero_totalAmount_counterexample :
    zeroTotalOrder.totalAmount = some 0 ∧ zeroTotalOrder.amount = some 50 ∧
    orderDateStr zeroTotalOrder = ((weekDays 0 sampleNow).map isoDateKey)[2]? ∧
    orderAmount zeroTotalOrder = 0 ∧
    series 0 sampleNow [zeroTotalOrder] = [0, 0, 0, 0, 0, 0, 0] ∧
    series 0 sampleNow [zeroTotalOrder] ≠ [0, 0, 50, 0, 0, 0, 0] :=
  ⟨rfl, rfl, by decide, by decide!, by decide!, by decide!⟩

end Dashboard

